import Mathlib

/-!
Shallow embedding of the calendar system's core logic
(`calendar_database_model.py`, the participant-update block of `app.py`,
and the free/busy computation of `calendar_controller.py`).

Timestamps are modelled as natural numbers counting minutes; SQLite stores
them as ISO-8601 text and compares them lexicographically, which agrees with
the numeric order on minutes within the single canonical zone the system
assumes.  One day is 1440 minutes; `datetime.date()` is division by 1440.

SQLite's `sqlite3` Python driver does not enforce foreign-key constraints
unless `PRAGMA foreign_keys = ON` is issued on the connection; the code never
issues it, so the `ON DELETE CASCADE` declared on `user_events` has no
runtime effect.  The embedding of `cancel_event` reflects that actual
behaviour: only the `events` row is deleted.
-/

structure UserRow where
  id : Nat
  name : String
  email : String
deriving DecidableEq, Repr

structure RoomRow where
  id : Nat
  name : String
  capacity : Nat
  is_virtual : Bool
deriving DecidableEq, Repr

structure EventRow where
  id : Nat
  title : String
  description : String
  start_time : Nat
  end_time : Nat
  meeting_room_id : Option Nat
deriving DecidableEq, Repr

structure UERow where
  user_id : Nat
  event_id : Nat
  is_organizer : Bool
deriving DecidableEq, Repr

/-- Database state: the four tables plus the AUTOINCREMENT counter of the
`events` table (AUTOINCREMENT ids are never reused, even after deletes). -/
structure DB where
  users : List UserRow
  meeting_rooms : List RoomRow
  events : List EventRow
  user_events : List UERow
  next_event_id : Nat
deriving DecidableEq, Repr

/-- The three-clause overlap condition appearing verbatim in the SQL of both
`check_user_availability` and `get_available_meeting_rooms`:
`(start_time <= qe AND end_time > qs) OR (start_time < qe AND end_time >= qs)
 OR (start_time >= qs AND end_time <= qe)` with the placeholders bound to the
query interval `[qs, qe]`. -/
def conflict3 (es ee qs qe : Nat) : Bool :=
  (es ≤ qe && ee > qs) || (es < qe && ee ≥ qs) || (es ≥ qs && ee ≤ qe)

/-- `ue.user_id = uid` join test: does user `uid` participate in event `e`?
(`events JOIN user_events ON e.id = ue.event_id WHERE ue.user_id = ?`). -/
def participatesb (db : DB) (uid : Nat) (e : EventRow) : Bool :=
  db.user_events.any (fun r => r.user_id == uid && r.event_id == e.id)

/-- `check_user_availability`: counts the events of the user matching the
three-clause overlap condition and returns whether the count is zero.
(The SQL counts join rows; with the `(user_id, event_id)` primary key each
event matches at most one join row, and only count-is-zero is observable,
so counting matching events is equivalent.) -/
def check_user_availability (db : DB) (uid qs qe : Nat) : Bool :=
  (db.events.filter
    (fun e => participatesb db uid e
      && conflict3 e.start_time e.end_time qs qe)).length == 0

/-- The subquery of `get_available_meeting_rooms`:
`SELECT DISTINCT meeting_room_id FROM events WHERE meeting_room_id IS NOT
NULL AND (three-clause overlap)`. -/
def bookedRoomIds (db : DB) (qs qe : Nat) : List Nat :=
  db.events.filterMap (fun e =>
    match e.meeting_room_id with
    | some rid =>
        if conflict3 e.start_time e.end_time qs qe then some rid else none
    | none => none)

/-- `get_available_meeting_rooms`: rooms with enough capacity that are
virtual or whose id is not in the booked-room subquery. -/
def get_available_meeting_rooms (db : DB) (qs qe : Nat) (min_capacity : Nat) :
    List RoomRow :=
  db.meeting_rooms.filter (fun m =>
    min_capacity ≤ m.capacity
      && (m.is_virtual || !((bookedRoomIds db qs qe).contains m.id)))

/-- Stable insertion (by interval start) used to model Python's stable
`list.sort(key=lambda x: x[0])`. -/
def insertByStart (p : Nat × Nat) : List (Nat × Nat) → List (Nat × Nat)
  | [] => [p]
  | q :: l => if p.1 < q.1 then p :: q :: l else q :: insertByStart p l

/-- Stable sort by interval start. -/
def sortByStart (l : List (Nat × Nat)) : List (Nat × Nat) :=
  l.foldl (fun acc p => insertByStart p acc) []

/-- Per-user event fetch of `find_common_available_time`:
`WHERE ue.user_id = ? AND e.start_time >= ? AND e.end_time <= ?
 ORDER BY e.start_time`. -/
def fetchWin (db : DB) (uid sd ed : Nat) : List (Nat × Nat) :=
  sortByStart ((db.events.filter (fun e =>
    participatesb db uid e && sd ≤ e.start_time && e.end_time ≤ ed)).map
      (fun e => (e.start_time, e.end_time)))

/-- `find_common_available_time`: iterate the days of `[sd, ed]` and the
hours of `[start_hour, end_hour)`; a candidate slot is skipped when its end
exceeds `ed` or when some participant has a fetched event with
`event_start <= slot_end and event_end > slot_start`. -/
def find_common_available_time (db : DB) (user_ids : List Nat)
    (duration_minutes sd ed start_hour end_hour : Nat) : List (Nat × Nat) :=
  let events_by_user := user_ids.map (fun u => fetchWin db u sd ed)
  let firstDay := sd / 1440
  let lastDay := ed / 1440
  (List.range (lastDay + 1 - firstDay)).flatMap (fun d =>
    (List.range' start_hour (end_hour - start_hour)).filterMap (fun h =>
      let slot_start := (firstDay + d) * 1440 + h * 60
      let slot_end := slot_start + duration_minutes
      if slot_end > ed then none
      else if events_by_user.any (fun evs =>
          evs.any (fun e => e.1 ≤ slot_end && e.2 > slot_start)) then none
      else some (slot_start, slot_end)))

/-- Insert into `user_events`; `none` models the `sqlite3.IntegrityError`
raised on a `(user_id, event_id)` primary-key violation. -/
def insertUE (ues : List UERow) (row : UERow) : Option (List UERow) :=
  if ues.any (fun r => r.user_id == row.user_id && r.event_id == row.event_id)
  then none
  else some (ues ++ [row])

/-- The attendee loop of `create_event`: attendees equal to the organizer are
skipped; any failed insert aborts the whole loop. -/
def insertAttendees (eid org : Nat) (atts : List Nat) (ues : List UERow) :
    Option (List UERow) :=
  match atts with
  | [] => some ues
  | u :: rest =>
    if u == org then insertAttendees eid org rest ues
    else
      match insertUE ues ⟨u, eid, false⟩ with
      | none => none
      | some ues' => insertAttendees eid org rest ues'

/-- `create_event`: insert the event row, the organizer participation, then
the attendee participations; on any `sqlite3.Error` the transaction is rolled
back, leaving the original state.  No field validation and no existence check
on `organizer_id`, `attendee_ids` or `meeting_room_id` is performed (foreign
keys are not enforced by the connection). -/
def create_event (db : DB) (title description : String) (st en : Nat)
    (organizer_id : Nat) (attendee_ids : List Nat)
    (meeting_room_id : Option Nat) : Except Unit Nat × DB :=
  let eid := db.next_event_id
  let ev : EventRow := ⟨eid, title, description, st, en, meeting_room_id⟩
  match insertUE db.user_events ⟨organizer_id, eid, true⟩ with
  | none => (.error (), db)
  | some ues1 =>
    match insertAttendees eid organizer_id attendee_ids ues1 with
    | none => (.error (), db)
    | some ues2 =>
      (.ok eid,
        { db with
            events := db.events ++ [ev]
            user_events := ues2
            next_event_id := eid + 1 })

/-- `cancel_event`: `DELETE FROM events WHERE id = ?`, returning whether a
row was removed.  The `ON DELETE CASCADE` on `user_events` is inert because
the connection never enables foreign-key enforcement, so participation rows
are left untouched. -/
def cancel_event (db : DB) (eid : Nat) : Bool × DB :=
  let remaining := db.events.filter (fun e => !(e.id == eid))
  (remaining.length < db.events.length, { db with events := remaining })

/-- `INSERT OR IGNORE INTO user_events`: a `(user_id, event_id)` primary-key
hit makes the insert a no-op instead of an error. -/
def insertOrIgnoreUE (ues : List UERow) (row : UERow) : List UERow :=
  if ues.any (fun r => r.user_id == row.user_id && r.event_id == row.event_id)
  then ues
  else ues ++ [row]

/-- SQL `user_id != ?` against a possibly-NULL organizer id: comparing with
NULL yields unknown, which does not satisfy the WHERE clause. -/
def sqlNeOrg (uid : Nat) : Option Nat → Bool
  | some o => uid != o
  | none => false

/-- Python `user_id != organizer_id` where `organizer_id` may be `None`:
an integer is always different from `None`. -/
def pyNeOrg (uid : Nat) : Option Nat → Bool
  | some o => uid != o
  | none => true

/-- The DELETE of the "set" branch:
`DELETE FROM USER_EVENTS WHERE event_id = ? AND (is_organizer = 0 OR
user_id != ?)` — rows surviving are those failing the WHERE clause. -/
def deleteNonOrg (ues : List UERow) (eid : Nat) (orgOpt : Option Nat) :
    List UERow :=
  ues.filter (fun r =>
    !(r.event_id == eid && (!r.is_organizer || sqlNeOrg r.user_id orgOpt)))

/-- The invited-users loop of the "set" branch: `INSERT OR IGNORE` of a
non-organizer row for every invited id different from the organizer. -/
def addInvited (eid : Nat) (orgOpt : Option Nat) (invited : List Nat)
    (acc : List UERow) : List UERow :=
  invited.foldl (fun acc u =>
    if pyNeOrg u orgOpt then insertOrIgnoreUE acc ⟨u, eid, false⟩ else acc)
    acc

/-- The participant block of `app.py`'s PATCH handler with
`user_operation = "set"`: fetch the organizer, delete every row of the event
that is a non-organizer row or carries another user id, re-insert the
organizer, then insert the invited users (skipping the organizer). -/
def update_event_set_participants (ues : List UERow) (eid : Nat)
    (invited : List Nat) : List UERow :=
  let orgOpt :=
    (ues.find? (fun r => r.event_id == eid && r.is_organizer)).map
      (fun r => r.user_id)
  let afterDelete := deleteNonOrg ues eid orgOpt
  let afterReinsert :=
    match orgOpt with
    | some o => insertOrIgnoreUE afterDelete ⟨o, eid, true⟩
    | none => afterDelete
  addInvited eid orgOpt invited afterReinsert

/-- Event fetch of the free/busy handler: `get_user_events` for the day,
filtering both date bounds against `e.start_time` (00:00 through 23:59). -/
def dayFetch (db : DB) (uid day : Nat) : List EventRow :=
  db.events.filter (fun e =>
    participatesb db uid e
      && 1440 * day ≤ e.start_time && e.start_time ≤ 1440 * day + 1439)

/-- Cursor computation of the free periods: for each busy interval emit
`[cur, busy.start)` when `cur < busy.start` and advance the cursor to
`max(cur, busy.end)`; finally emit `[cur, work_end)` when `cur < work_end`. -/
def freePeriods (we : Nat) : Nat → List (Nat × Nat) → List (Nat × Nat)
  | cur, [] => if cur < we then [(cur, we)] else []
  | cur, p :: rest =>
      (if cur < p.1 then [(cur, p.1)] else [])
        ++ freePeriods we (max cur p.2) rest

/-- Free/busy result of `_handle_availability_check` for a user and a day:
the sorted busy list of that day's events and the complementary free list
within the 09:00-17:00 working window. -/
def freeBusyUser (db : DB) (uid day : Nat) :
    List (Nat × Nat) × List (Nat × Nat) :=
  let busy := sortByStart ((dayFetch db uid day).map
    (fun e => (e.start_time, e.end_time)))
  (busy, freePeriods (1440 * day + 1020) (1440 * day + 540) busy)

/-- How many intervals of the list contain the instant `t` (half-open). -/
def countCover (t : Nat) (l : List (Nat × Nat)) : Nat :=
  (l.filter (fun p => p.1 ≤ t && t < p.2)).length

/-! ### Concrete states used by counterexamples and witnesses -/

/-- A user (id 1) whose only event is `[600, 660)`, i.e. `[10:00, 11:00)` on
day 0. -/
def exdb1 : DB :=
  { users := [], meeting_rooms := [],
    events := [⟨1, "m", "", 600, 660, none⟩],
    user_events := [⟨1, 1, true⟩], next_event_id := 2 }

/-- A non-virtual room (id 2, capacity 4) whose only booking is `[840, 900)`,
i.e. `[14:00, 15:00)`. -/
def exdb3 : DB :=
  { users := [], meeting_rooms := [⟨2, "R", 4, false⟩],
    events := [⟨1, "m", "", 840, 900, some 2⟩],
    user_events := [], next_event_id := 2 }

/-- The empty database. -/
def db0 : DB :=
  { users := [], meeting_rooms := [], events := [], user_events := [],
    next_event_id := 1 }

/-- An event (id 1) with three participants. -/
def exdb6 : DB :=
  { users := [], meeting_rooms := [],
    events := [⟨1, "m", "", 600, 660, none⟩],
    user_events := [⟨1, 1, true⟩, ⟨2, 1, false⟩, ⟨3, 1, false⟩],
    next_event_id := 2 }

/-- A user (id 1) whose only event is `[480, 600)`, i.e. `[08:00, 10:00)`:
it starts inside day 0 but before the 09:00 working-window start. -/
def exdb8 : DB :=
  { users := [], meeting_rooms := [],
    events := [⟨1, "m", "", 480, 600, none⟩],
    user_events := [⟨1, 1, true⟩], next_event_id := 2 }

/-! ### The three-clause condition collapses to closed-interval overlap -/

/-- For well-formed intervals the SQL three-clause disjunction is exactly the
closed-interval overlap test `es ≤ qe ∧ qs ≤ ee`: intervals that merely touch
at an endpoint do satisfy it. -/
lemma conflict3_iff (es ee qs qe : Nat) (h1 : es < ee) (h2 : qs ≤ qe) :
    conflict3 es ee qs qe = true ↔ (es ≤ qe ∧ qs ≤ ee) := by
  simp only [conflict3, Bool.or_eq_true, Bool.and_eq_true, decide_eq_true_eq]
  omega

/-- C1 counterexample: user 1's event `[600, 660)` merely touches the query
interval `[660, 720)` (event.end = query start), which under the half-open
rule is no conflict, yet `check_user_availability` reports the user busy. -/
theorem touching_event_counted_as_conflict :
    check_user_availability exdb1 1 660 720 = false ∧
      ∀ e ∈ exdb1.events, ¬(e.start_time < 720 ∧ 660 < e.end_time) := by
  decide

/-- C1: `check_user_availability` returns true iff no event of the user
satisfies the closed-interval test `event.start ≤ e ∧ s ≤ event.end`; an
event touching a boundary therefore makes the result false. -/
theorem check_user_availability_iff_closed_overlap (db : DB) (uid qs qe : Nat)
    (hdb : ∀ e ∈ db.events, e.start_time < e.end_time) (hq : qs ≤ qe) :
    check_user_availability db uid qs qe = true ↔
      ∀ e ∈ db.events, participatesb db uid e = true →
        ¬(e.start_time ≤ qe ∧ qs ≤ e.end_time) := by
  unfold check_user_availability
  rw [beq_iff_eq, List.length_eq_zero, List.filter_eq_nil_iff]
  constructor
  · intro h e he hp hov
    refine h e he ?_
    rw [Bool.and_eq_true]
    exact ⟨hp, (conflict3_iff _ _ _ _ (hdb e he) hq).mpr hov⟩
  · intro h e he hb
    rw [Bool.and_eq_true] at hb
    exact h e he hb.1 ((conflict3_iff _ _ _ _ (hdb e he) hq).mp hb.2)

/-- Witness for C1 at a concrete input: the query `[700, 800)` against the
event `[600, 660)` satisfies the hypotheses and the equivalence. -/
theorem check_user_availability_iff_closed_overlap_witness :
    ((∀ e ∈ exdb1.events, e.start_time < e.end_time) ∧ (700 : Nat) ≤ 800) ∧
      (check_user_availability exdb1 1 700 800 = true ↔
        ∀ e ∈ exdb1.events, participatesb exdb1 1 e = true →
          ¬(e.start_time ≤ 800 ∧ 700 ≤ e.end_time)) :=
  ⟨⟨by decide, by decide⟩,
    check_user_availability_iff_closed_overlap exdb1 1 700 800
      (by decide) (by decide)⟩

/-- Membership in the booked-rooms subquery. -/
lemma mem_bookedRoomIds (db : DB) (qs qe rid : Nat) :
    rid ∈ bookedRoomIds db qs qe ↔
      ∃ e ∈ db.events, e.meeting_room_id = some rid ∧
        conflict3 e.start_time e.end_time qs qe = true := by
  unfold bookedRoomIds
  rw [List.mem_filterMap]
  refine exists_congr fun e => and_congr_right fun _ => ?_
  cases hmr : e.meeting_room_id with
  | none => simp [hmr]
  | some rid' =>
    by_cases hc : conflict3 e.start_time e.end_time qs qe = true
    · simp [hmr, hc]
    · simp [hmr, hc]

/-- C3 counterexample: the room with capacity 4 booked for `[840, 900)`
(14:00-15:00) is excluded by the query `[900, 960)` (15:00-16:00) although
the booking only touches the query at its start; the claim demands the room
be included there.  (The first conjunct, exclusion at `[840, 900)`, matches
the claim.) -/
theorem room_excluded_after_touching_booking :
    get_available_meeting_rooms exdb3 840 900 2 = [] ∧
      get_available_meeting_rooms exdb3 900 960 2 = [] := by
  decide

/-- C3: a room is returned iff it has enough capacity and is virtual or has
no booking satisfying the closed-interval test `event.start ≤ end ∧
start ≤ event.end`; bookings touching the query interval therefore exclude
the room. -/
theorem get_available_meeting_rooms_iff_closed_overlap (db : DB)
    (qs qe cap : Nat) (r : RoomRow)
    (hdb : ∀ e ∈ db.events, e.start_time < e.end_time) (hq : qs ≤ qe) :
    r ∈ get_available_meeting_rooms db qs qe cap ↔
      r ∈ db.meeting_rooms ∧ cap ≤ r.capacity ∧
        (r.is_virtual = true ∨
          ∀ e ∈ db.events, e.meeting_room_id = some r.id →
            ¬(e.start_time ≤ qe ∧ qs ≤ e.end_time)) := by
  unfold get_available_meeting_rooms
  rw [List.mem_filter, Bool.and_eq_true, Bool.or_eq_true, decide_eq_true_eq]
  refine and_congr_right fun _ => and_congr_right fun _ => or_congr_right ?_
  rw [Bool.not_eq_true', ← Bool.not_eq_true, List.elem_iff, mem_bookedRoomIds]
  constructor
  · intro h e he hmr hov
    exact h ⟨e, he, hmr,
      (conflict3_iff _ _ _ _ (hdb e he) hq).mpr hov⟩
  · rintro h ⟨e, he, hmr, hc⟩
    exact h e he hmr ((conflict3_iff _ _ _ _ (hdb e he) hq).mp hc)

/-- Witness for C3 at a concrete input: the query `[960, 1020)` starts after
the booking ends with a gap, and the room is indeed returned. -/
theorem get_available_meeting_rooms_iff_closed_overlap_witness :
    ((∀ e ∈ exdb3.events, e.start_time < e.end_time) ∧ (960 : Nat) ≤ 1020) ∧
      (⟨2, "R", 4, false⟩ ∈ get_available_meeting_rooms exdb3 960 1020 2 ↔
        ⟨2, "R", 4, false⟩ ∈ exdb3.meeting_rooms ∧ 2 ≤ (4 : Nat) ∧
          ((false : Bool) = true ∨
            ∀ e ∈ exdb3.events, e.meeting_room_id = some 2 →
              ¬(e.start_time ≤ 1020 ∧ 960 ≤ e.end_time))) :=
  ⟨⟨by decide, by decide⟩,
    get_available_meeting_rooms_iff_closed_overlap exdb3 960 1020 2
      ⟨2, "R", 4, false⟩ (by decide) (by decide)⟩

/-! ### Common Slot Finder scenario (C2) -/

/-- C2 counterexample: with participant 1's only event `[600, 660)`
(10:00-11:00) and the search window covering day 0, the 9:00 candidate
`[540, 600)` is NOT returned, because the slot-conflict test
`event_start <= slot_end` treats a slot ending exactly at the event's start
as conflicting; the claim demands it be included. -/
theorem slot_9_excluded_despite_touching :
    (540, 600) ∉ find_common_available_time exdb1 [1] 60 0 1439 9 17 := by
  decide

/-- C2: in the scenario of the claim, `find_common_available_time` excludes
the 10:00 candidate as claimed, but also excludes the 9:00 candidate (a slot
whose end touches the event's start counts as a conflict) and includes the
11:00 candidate. -/
theorem find_common_slots_scenario :
    (540, 600) ∉ find_common_available_time exdb1 [1] 60 0 1439 9 17 ∧
      (600, 660) ∉ find_common_available_time exdb1 [1] 60 0 1439 9 17 ∧
      (660, 720) ∈ find_common_available_time exdb1 [1] 60 0 1439 9 17 := by
  decide

/-! ### create_event: success lemma shared by C4 and C10 -/

/-- An insert into `user_events` succeeds when no existing row has the same
`(user_id, event_id)` key. -/
lemma insertUE_ok (ues : List UERow) (row : UERow)
    (h : ∀ r ∈ ues, ¬(r.user_id = row.user_id ∧ r.event_id = row.event_id)) :
    insertUE ues row = some (ues ++ [row]) := by
  have hfalse :
      (ues.any fun r =>
        r.user_id == row.user_id && r.event_id == row.event_id) = false := by
    rw [List.any_eq_false]
    intro r hr
    simp only [Bool.and_eq_true, beq_iff_eq, not_and]
    intro h1 h2
    exact h r hr ⟨h1, h2⟩
  simp [insertUE, hfalse]

/-- The attendee loop succeeds and appends exactly one non-organizer row per
distinct attendee id different from the organizer, in list order. -/
lemma insertAttendees_ok (eid org : Nat) :
    ∀ (atts : List Nat) (ues : List UERow),
      (∀ u ∈ atts, u ≠ org → ∀ r ∈ ues,
        ¬(r.user_id = u ∧ r.event_id = eid)) →
      (atts.filter (fun u => u != org)).Nodup →
      insertAttendees eid org atts ues =
        some (ues ++ (atts.filter (fun u => u != org)).map
          (fun u => ⟨u, eid, false⟩)) := by
  intro atts
  induction atts with
  | nil => intro ues _ _; simp [insertAttendees]
  | cons u rest ih =>
    intro ues h hnd
    by_cases hu : u = org
    · have hfilter : ((u :: rest).filter (fun v => v != org)) =
          rest.filter (fun v => v != org) := by
        rw [List.filter_cons, if_neg (by simp [hu])]
      rw [hfilter] at hnd ⊢
      have : insertAttendees eid org (u :: rest) ues =
          insertAttendees eid org rest ues := by
        simp [insertAttendees, hu]
      rw [this]
      exact ih ues (fun v hv => h v (List.mem_cons_of_mem u hv)) hnd
    · have hfilter : ((u :: rest).filter (fun v => v != org)) =
          u :: rest.filter (fun v => v != org) := by
        rw [List.filter_cons, if_pos (by simp [hu])]
      rw [hfilter] at hnd ⊢
      have hnotmem := (List.nodup_cons.mp hnd).1
      have hnd' := (List.nodup_cons.mp hnd).2
      have hins : insertUE ues ⟨u, eid, false⟩ = some (ues ++ [⟨u, eid, false⟩]) :=
        insertUE_ok ues ⟨u, eid, false⟩
          (h u (List.mem_cons_self u rest) hu)
      have hstep : insertAttendees eid org (u :: rest) ues =
          insertAttendees eid org rest (ues ++ [⟨u, eid, false⟩]) := by
        simp [insertAttendees, hu, hins]
      rw [hstep]
      have h' : ∀ v ∈ rest, v ≠ org → ∀ r ∈ ues ++ [UERow.mk u eid false],
          ¬(r.user_id = v ∧ r.event_id = eid) := by
        intro v hv hvorg r hr
        rcases List.mem_append.mp hr with hr | hr
        · exact h v (List.mem_cons_of_mem u hv) hvorg r hr
        · rcases List.mem_singleton.mp hr with rfl
          rintro ⟨h1, -⟩
          have h1' : u = v := h1
          subst h1'
          exact hnotmem (List.mem_filter.mpr ⟨hv, by simpa using hvorg⟩)
      have hrec := ih (ues ++ [(⟨u, eid, false⟩ : UERow)]) h' hnd'
      rw [hrec]
      simp

/-- `create_event` succeeds whenever the fresh event id is unused in
`user_events` and the non-organizer attendee ids are distinct; the resulting
state appends exactly the event row, the organizer row and the attendee
rows.  Note that no hypothesis about `db.users` or `db.meeting_rooms` is
needed: the code checks no reference. -/
lemma create_event_ok (db : DB) (title desc : String) (st en : Nat)
    (org : Nat) (atts : List Nat) (room : Option Nat)
    (hfresh : ∀ r ∈ db.user_events, r.event_id ≠ db.next_event_id)
    (hnodup : (atts.filter (fun u => u != org)).Nodup) :
    create_event db title desc st en org atts room =
      (.ok db.next_event_id,
        { db with
            events := db.events ++
              [⟨db.next_event_id, title, desc, st, en, room⟩]
            user_events := (db.user_events ++
                [⟨org, db.next_event_id, true⟩]) ++
              (atts.filter (fun u => u != org)).map
                (fun u => ⟨u, db.next_event_id, false⟩)
            next_event_id := db.next_event_id + 1 }) := by
  have h1 : insertUE db.user_events ⟨org, db.next_event_id, true⟩ =
      some (db.user_events ++ [⟨org, db.next_event_id, true⟩]) :=
    insertUE_ok _ _ (fun r hr hc => hfresh r hr hc.2)
  have h2 : insertAttendees db.next_event_id org atts
      (db.user_events ++ [⟨org, db.next_event_id, true⟩]) =
      some ((db.user_events ++ [⟨org, db.next_event_id, true⟩]) ++
        (atts.filter (fun u => u != org)).map
          (fun u => ⟨u, db.next_event_id, false⟩)) := by
    refine insertAttendees_ok db.next_event_id org atts _ ?_ hnodup
    intro u hu huorg r hr
    rcases List.mem_append.mp hr with hr | hr
    · rintro ⟨-, h2⟩
      exact hfresh r hr h2
    · rcases List.mem_singleton.mp hr with rfl
      rintro ⟨h1', -⟩
      exact huorg h1'.symm
  simp [create_event, h1, h2]

/-- C4 counterexample: `create_event` called with start 5 and end 3 (a
malformed interval) succeeds, returns the fresh event id 1, and persists the
event row — no `ValidationError` is raised (no such check exists in the
code). -/
theorem create_event_accepts_reversed_interval :
    (create_event db0 "t" "" 5 3 1 [] none).1 = .ok 1 ∧
      (create_event db0 "t" "" 5 3 1 [] none).2.events =
        [⟨1, "t", "", 5, 3, none⟩] :=
  ⟨rfl, rfl⟩

/-- C4: `create_event` performs no interval validation: for every call with
`end ≤ start` (hence in particular `start ≥ end`) it still returns the fresh
event id and persists the event and participation rows, provided only that
the inserts themselves do not collide on the `(user_id, event_id)` key. -/
theorem create_event_no_interval_validation (db : DB) (title desc : String)
    (st en : Nat) (org : Nat) (atts : List Nat) (room : Option Nat)
    (_hrev : en ≤ st)
    (hfresh : ∀ r ∈ db.user_events, r.event_id ≠ db.next_event_id)
    (hnodup : (atts.filter (fun u => u != org)).Nodup) :
    (create_event db title desc st en org atts room).1 =
        .ok db.next_event_id ∧
      ⟨db.next_event_id, title, desc, st, en, room⟩ ∈
        (create_event db title desc st en org atts room).2.events := by
  rw [create_event_ok db title desc st en org atts room hfresh hnodup]
  exact ⟨rfl, by simp⟩

/-- Witness for C4: a reversed interval (start 5, end 3) on the empty
database is accepted and persisted. -/
theorem create_event_no_interval_validation_witness :
    ((3 : Nat) ≤ 5 ∧
        (∀ r ∈ db0.user_events, r.event_id ≠ db0.next_event_id) ∧
        (([2].filter (fun u => u != 1)).Nodup)) ∧
      ((create_event db0 "t" "" 5 3 1 [2] none).1 = .ok db0.next_event_id ∧
        ⟨db0.next_event_id, "t", "", 5, 3, none⟩ ∈
          (create_event db0 "t" "" 5 3 1 [2] none).2.events) :=
  ⟨⟨by decide, by decide, by decide⟩,
    create_event_no_interval_validation db0 "t" "" 5 3 1 [2] none
      (by decide) (by decide) (by decide)⟩

/-- C5: `create_event` is atomic — whenever it reports a failure, the
returned state is exactly the initial state: the event row, the organizer
row and any attendee rows written before the failing insert are all rolled
back, so no orphan organizer participation survives. -/
theorem create_event_failure_rolls_back (db : DB) (title desc : String)
    (st en : Nat) (org : Nat) (atts : List Nat) (room : Option Nat)
    (h : (create_event db title desc st en org atts room).1 = .error ()) :
    (create_event db title desc st en org atts room).2 = db := by
  revert h
  simp only [create_event]
  split
  · intro _; rfl
  · split
    · intro _; rfl
    · intro h; simp at h

/-- Witness for C5: a duplicate attendee id forces a primary-key failure on
the second attendee insert — after the organizer row was already written —
and the state comes back unchanged. -/
theorem create_event_failure_rolls_back_witness :
    (create_event db0 "t" "" 0 60 1 [2, 2] none).1 = .error () ∧
      (create_event db0 "t" "" 0 60 1 [2, 2] none).2 = db0 :=
  ⟨rfl, create_event_failure_rolls_back db0 "t" "" 0 60 1 [2, 2] none rfl⟩

/-- C6: cancelling event 1 (which has 3 participation rows) removes the
event row and returns true, but — the cascade being unenforced — the 3
participation rows survive as orphans; a second cancel returns false and
changes nothing. -/
theorem cancel_event_leaves_participations :
    (cancel_event exdb6 1).1 = true ∧
      (cancel_event exdb6 1).2.events = [] ∧
      (cancel_event exdb6 1).2.user_events =
        [⟨1, 1, true⟩, ⟨2, 1, false⟩, ⟨3, 1, false⟩] ∧
      (cancel_event (cancel_event exdb6 1).2 1).1 = false ∧
      (cancel_event (cancel_event exdb6 1).2 1).2 = (cancel_event exdb6 1).2 := by
  refine ⟨?_, rfl, rfl, ?_, ?_⟩ <;> decide

/-- C10: `create_event` checks no reference: for arbitrary organizer,
attendee and room ids — regardless of the contents of `db.users` and
`db.meeting_rooms`, which the function never consults — the call returns the
fresh event id and inserts exactly the event row, the organizer row, and one
non-organizer row per distinct attendee other than the organizer. -/
theorem create_event_no_reference_check (db : DB) (title desc : String)
    (st en : Nat) (org : Nat) (atts : List Nat) (room : Option Nat)
    (hfresh : ∀ r ∈ db.user_events, r.event_id ≠ db.next_event_id)
    (hnodup : (atts.filter (fun u => u != org)).Nodup) :
    (create_event db title desc st en org atts room).1 =
        .ok db.next_event_id ∧
      (create_event db title desc st en org atts room).2.events =
        db.events ++ [⟨db.next_event_id, title, desc, st, en, room⟩] ∧
      (create_event db title desc st en org atts room).2.user_events =
        (db.user_events ++ [⟨org, db.next_event_id, true⟩]) ++
          (atts.filter (fun u => u != org)).map
            (fun u => ⟨u, db.next_event_id, false⟩) := by
  rw [create_event_ok db title desc st en org atts room hfresh hnodup]
  exact ⟨rfl, rfl, rfl⟩

/-- Witness for C10: on a database with no users and no rooms at all, a call
referencing organizer 7, attendees 8 and 9 and room 42 succeeds and inserts
all rows. -/
theorem create_event_no_reference_check_witness :
    ((∀ r ∈ db0.user_events, r.event_id ≠ db0.next_event_id) ∧
        (([8, 9].filter (fun u => u != 7)).Nodup)) ∧
      ((create_event db0 "t" "" 600 660 7 [8, 9] (some 42)).1 =
          .ok db0.next_event_id ∧
        (create_event db0 "t" "" 600 660 7 [8, 9] (some 42)).2.events =
          db0.events ++ [⟨db0.next_event_id, "t", "", 600, 660, some 42⟩] ∧
        (create_event db0 "t" "" 600 660 7 [8, 9] (some 42)).2.user_events =
          (db0.user_events ++ [⟨7, db0.next_event_id, true⟩]) ++
            ([8, 9].filter (fun u => u != 7)).map
              (fun u => ⟨u, db0.next_event_id, false⟩)) :=
  ⟨⟨by decide, by decide⟩,
    create_event_no_reference_check db0 "t" "" 600 660 7 [8, 9] (some 42)
      (by decide) (by decide)⟩

/-! ### updateEvent "set" preserves the organizer (C7) -/

/-- When a filter has a unique hit, `find?` (the SQL `fetchone`) returns
that hit. -/
lemma find?_of_filter_singleton {α : Type} (p : α → Bool) :
    ∀ (l : List α) (a : α), l.filter p = [a] → l.find? p = some a := by
  intro l
  induction l with
  | nil => intro a h; simp at h
  | cons x xs ih =>
    intro a h
    by_cases hx : p x = true
    · rw [List.filter_cons_of_pos hx] at h
      obtain ⟨rfl, -⟩ := List.cons_eq_cons.mp h
      simp [List.find?, hx]
    · have hf : p x = false := by simpa using hx
      rw [List.filter_cons_of_neg (by simp [hf])] at h
      simp only [List.find?, hf]
      exact ih a h

/-- `INSERT OR IGNORE` is a no-op when the key is already present. -/
lemma insertOrIgnoreUE_mem (ues : List UERow) (row : UERow) (r : UERow)
    (hr : r ∈ ues) (h1 : r.user_id = row.user_id)
    (h2 : r.event_id = row.event_id) :
    insertOrIgnoreUE ues row = ues := by
  have hany : (ues.any fun s =>
      s.user_id == row.user_id && s.event_id == row.event_id) = true :=
    List.any_eq_true.mpr ⟨r, hr, by simp [h1, h2]⟩
  simp [insertOrIgnoreUE, hany]

/-- `INSERT OR IGNORE` appends when the key is absent. -/
lemma insertOrIgnoreUE_not_mem (ues : List UERow) (row : UERow)
    (h : ∀ r ∈ ues, ¬(r.user_id = row.user_id ∧ r.event_id = row.event_id)) :
    insertOrIgnoreUE ues row = ues ++ [row] := by
  have hany : (ues.any fun s =>
      s.user_id == row.user_id && s.event_id == row.event_id) = false := by
    rw [List.any_eq_false]
    intro r hr
    simp only [Bool.and_eq_true, beq_iff_eq, not_and]
    intro ha hb
    exact h r hr ⟨ha, hb⟩
  simp [insertOrIgnoreUE, hany]

/-- After the DELETE of the "set" branch, the surviving rows of the event
are exactly the unique organizer row. -/
lemma deleteNonOrg_spec (ues : List UERow) (eid org : Nat)
    (hone : ues.filter (fun r => r.event_id == eid && r.is_organizer) =
      [⟨org, eid, true⟩]) :
    (deleteNonOrg ues eid (some org)).filter
        (fun r => r.event_id == eid) = [⟨org, eid, true⟩] := by
  unfold deleteNonOrg
  rw [List.filter_filter]
  have hpt : ∀ r ∈ ues,
      ((r.event_id == eid) &&
        !(r.event_id == eid &&
          (!r.is_organizer || sqlNeOrg r.user_id (some org)))) =
      ((r.user_id == org) && (r.event_id == eid && r.is_organizer)) := by
    intro r _
    simp only [sqlNeOrg, bne]
    cases h1 : (r.event_id == eid) <;> cases h2 : r.is_organizer <;>
      cases h3 : (r.user_id == org) <;> simp [h1, h2, h3]
  rw [List.filter_congr hpt, ← List.filter_filter, hone]
  simp

/-- Effect of the invited-users loop: organizer rows of the event are
untouched, the organizer-implies-`org` invariant is preserved, and the
non-organizer rows of the event grow by exactly the invited ids other than
the organizer. -/
lemma addInvited_spec (eid org : Nat) :
    ∀ (invited : List Nat) (acc : List UERow),
      (∀ r ∈ acc, r.event_id = eid → r.is_organizer = true →
        r.user_id = org) →
      ((addInvited eid (some org) invited acc).filter
          (fun r => r.event_id == eid && r.is_organizer) =
        acc.filter (fun r => r.event_id == eid && r.is_organizer)) ∧
      (∀ r ∈ addInvited eid (some org) invited acc,
        r.event_id = eid → r.is_organizer = true → r.user_id = org) ∧
      (∀ v, (∃ r ∈ addInvited eid (some org) invited acc,
            r.event_id = eid ∧ r.is_organizer = false ∧ r.user_id = v) ↔
        ((∃ r ∈ acc, r.event_id = eid ∧ r.is_organizer = false ∧
            r.user_id = v) ∨ (v ∈ invited ∧ v ≠ org))) := by
  intro invited
  induction invited with
  | nil =>
    intro acc horg
    refine ⟨rfl, horg, fun v => ?_⟩
    simp [addInvited]
  | cons u rest ih =>
    intro acc horg
    by_cases hu : u = org
    · subst hu
      have hstep : addInvited eid (some u) (u :: rest) acc =
          addInvited eid (some u) rest acc := by
        simp [addInvited, pyNeOrg]
      rw [hstep]
      obtain ⟨ha, hb, hc⟩ := ih acc horg
      refine ⟨ha, hb, fun v => ?_⟩
      rw [hc v]
      constructor
      · rintro (h | ⟨hv, hvo⟩)
        · exact Or.inl h
        · exact Or.inr ⟨List.mem_cons_of_mem u hv, hvo⟩
      · rintro (h | ⟨hv, hvo⟩)
        · exact Or.inl h
        · rcases List.mem_cons.mp hv with rfl | hv'
          · exact absurd rfl hvo
          · exact Or.inr ⟨hv', hvo⟩
    · have hbne : (u != org) = true := by simp [hu]
      have hstep : addInvited eid (some org) (u :: rest) acc =
          addInvited eid (some org) rest
            (insertOrIgnoreUE acc ⟨u, eid, false⟩) := by
        simp [addInvited, pyNeOrg, hbne, hu]
      by_cases hpresent : ∃ r ∈ acc, r.user_id = u ∧ r.event_id = eid
      · obtain ⟨r0, hr0, hru, hre⟩ := hpresent
        have hr0flag : r0.is_organizer = false := by
          cases hfl : r0.is_organizer
          · rfl
          · exact absurd (hru ▸ horg r0 hr0 hre hfl) hu
        have hins : insertOrIgnoreUE acc ⟨u, eid, false⟩ = acc :=
          insertOrIgnoreUE_mem acc ⟨u, eid, false⟩ r0 hr0 hru hre
        rw [hstep, hins]
        obtain ⟨ha, hb, hc⟩ := ih acc horg
        refine ⟨ha, hb, fun v => ?_⟩
        rw [hc v]
        constructor
        · rintro (h | ⟨hv, hvo⟩)
          · exact Or.inl h
          · exact Or.inr ⟨List.mem_cons_of_mem u hv, hvo⟩
        · rintro (h | ⟨hv, hvo⟩)
          · exact Or.inl h
          · rcases List.mem_cons.mp hv with rfl | hv'
            · exact Or.inl ⟨r0, hr0, hre, hr0flag, hru⟩
            · exact Or.inr ⟨hv', hvo⟩
      · have habs : ∀ r ∈ acc,
            ¬(r.user_id = u ∧ r.event_id = eid) := by
          intro r hr hcontra
          exact hpresent ⟨r, hr, hcontra⟩
        have hins : insertOrIgnoreUE acc ⟨u, eid, false⟩ =
            acc ++ [⟨u, eid, false⟩] :=
          insertOrIgnoreUE_not_mem acc ⟨u, eid, false⟩ habs
        rw [hstep, hins]
        have horg' : ∀ r ∈ acc ++ [UERow.mk u eid false],
            r.event_id = eid → r.is_organizer = true → r.user_id = org := by
          intro r hr h1 h2
          rcases List.mem_append.mp hr with hr | hr
          · exact horg r hr h1 h2
          · rcases List.mem_singleton.mp hr with rfl
            exact absurd h2 (by simp)
        obtain ⟨ha, hb, hc⟩ := ih (acc ++ [⟨u, eid, false⟩]) horg'
        refine ⟨?_, hb, fun v => ?_⟩
        · rw [ha, List.filter_append]
          simp
        · rw [hc v]
          constructor
          · rintro (h | ⟨hv, hvo⟩)
            · obtain ⟨r, hr, h1, h2, h3⟩ := h
              rcases List.mem_append.mp hr with hr | hr
              · exact Or.inl ⟨r, hr, h1, h2, h3⟩
              · rcases List.mem_singleton.mp hr with rfl
                have hv : u = v := h3
                subst hv
                exact Or.inr ⟨List.mem_cons_self u rest, hu⟩
            · exact Or.inr ⟨List.mem_cons_of_mem u hv, hvo⟩
          · rintro (h | ⟨hv, hvo⟩)
            · obtain ⟨r, hr, h1, h2, h3⟩ := h
              exact Or.inl ⟨r, List.mem_append.mpr (Or.inl hr), h1, h2, h3⟩
            · rcases List.mem_cons.mp hv with rfl | hv'
              · exact Or.inl ⟨⟨v, eid, false⟩,
                  List.mem_append.mpr (Or.inr (List.mem_singleton.mpr rfl)),
                  rfl, rfl, rfl⟩
              · exact Or.inr ⟨hv', hvo⟩

/-- C7: after the "set" participant update, the event still has exactly one
organizer participation row, carrying the original organizer — even when
the invited list omits the organizer's id — and the non-organizer
participants of the event are exactly the invited ids other than the
organizer. -/
theorem update_event_set_preserves_organizer (ues : List UERow)
    (eid org : Nat) (invited : List Nat)
    (hone : ues.filter (fun r => r.event_id == eid && r.is_organizer) =
      [⟨org, eid, true⟩]) :
    ((update_event_set_participants ues eid invited).filter
        (fun r => r.event_id == eid && r.is_organizer) =
      [⟨org, eid, true⟩]) ∧
    ∀ v, (∃ r ∈ update_event_set_participants ues eid invited,
        r.event_id = eid ∧ r.is_organizer = false ∧ r.user_id = v) ↔
      (v ∈ invited ∧ v ≠ org) := by
  have hfind := find?_of_filter_singleton _ ues ⟨org, eid, true⟩ hone
  have hdel := deleteNonOrg_spec ues eid org hone
  have hunfold : update_event_set_participants ues eid invited =
      addInvited eid (some org) invited
        (insertOrIgnoreUE (deleteNonOrg ues eid (some org))
          ⟨org, eid, true⟩) := by
    simp [update_event_set_participants, hfind]
  have horgmem : (⟨org, eid, true⟩ : UERow) ∈
      deleteNonOrg ues eid (some org) := by
    have hm : (⟨org, eid, true⟩ : UERow) ∈
        (deleteNonOrg ues eid (some org)).filter
          (fun r => r.event_id == eid) := by
      rw [hdel]; exact List.mem_singleton.mpr rfl
    exact List.mem_of_mem_filter hm
  have hreins : insertOrIgnoreUE (deleteNonOrg ues eid (some org))
      ⟨org, eid, true⟩ = deleteNonOrg ues eid (some org) :=
    insertOrIgnoreUE_mem _ _ _ horgmem rfl rfl
  rw [hunfold, hreins]
  have horg : ∀ r ∈ deleteNonOrg ues eid (some org),
      r.event_id = eid → r.is_organizer = true → r.user_id = org := by
    intro r hr h1 h2
    have hm : r ∈ (deleteNonOrg ues eid (some org)).filter
        (fun r => r.event_id == eid) :=
      List.mem_filter.mpr ⟨hr, by simp [h1]⟩
    rw [hdel] at hm
    have hm' := List.mem_singleton.mp hm
    subst hm'
    rfl
  obtain ⟨ha, -, hc⟩ :=
    addInvited_spec eid org invited (deleteNonOrg ues eid (some org)) horg
  have hDnonorg : ∀ v, ¬∃ r ∈ deleteNonOrg ues eid (some org),
      r.event_id = eid ∧ r.is_organizer = false ∧ r.user_id = v := by
    rintro v ⟨r, hr, h1, h2, -⟩
    have hm : r ∈ (deleteNonOrg ues eid (some org)).filter
        (fun r => r.event_id == eid) :=
      List.mem_filter.mpr ⟨hr, by simp [h1]⟩
    rw [hdel] at hm
    have hm' := List.mem_singleton.mp hm
    subst hm'
    exact absurd h2 (by simp)
  constructor
  · rw [ha]
    have hswap : (deleteNonOrg ues eid (some org)).filter
        (fun r => r.event_id == eid && r.is_organizer) =
        (deleteNonOrg ues eid (some org)).filter
          (fun r => r.is_organizer && (r.event_id == eid)) :=
      List.filter_congr (fun r _ => by
        cases h1 : (r.event_id == eid) <;> cases h2 : r.is_organizer <;>
          simp [h1, h2])
    rw [hswap, ← List.filter_filter, hdel]
    simp
  · intro v
    rw [hc v]
    constructor
    · rintro (h | h)
      · exact absurd h (hDnonorg v)
      · exact h
    · intro h
      exact Or.inr h

/-- Witness for C7: event 1 has organizer 1 and attendees 2 and 3; a "set"
with invited list `[2, 4]` — which omits the organizer — keeps organizer 1
and leaves exactly the non-organizer participants 2 and 4. -/
theorem update_event_set_preserves_organizer_witness :
    (([⟨1, 1, true⟩, ⟨2, 1, false⟩, ⟨3, 1, false⟩] : List UERow).filter
        (fun r => r.event_id == 1 && r.is_organizer) = [⟨1, 1, true⟩]) ∧
      (((update_event_set_participants
            [⟨1, 1, true⟩, ⟨2, 1, false⟩, ⟨3, 1, false⟩] 1 [2, 4]).filter
          (fun r => r.event_id == 1 && r.is_organizer) = [⟨1, 1, true⟩]) ∧
        ∀ v, (∃ r ∈ update_event_set_participants
              [⟨1, 1, true⟩, ⟨2, 1, false⟩, ⟨3, 1, false⟩] 1 [2, 4],
            r.event_id = 1 ∧ r.is_organizer = false ∧ r.user_id = v) ↔
          (v ∈ [2, 4] ∧ v ≠ 1)) :=
  ⟨by decide,
    update_event_set_preserves_organizer
      [⟨1, 1, true⟩, ⟨2, 1, false⟩, ⟨3, 1, false⟩] 1 1 [2, 4] (by decide)⟩

/-! ### Free/busy tiling of the working window (C8) -/

/-- Inserting by start yields a permutation of consing. -/
lemma insertByStart_perm (p : Nat × Nat) :
    ∀ l, List.Perm (insertByStart p l) (p :: l) := by
  intro l
  induction l with
  | nil => simp [insertByStart]
  | cons q l ih =>
    by_cases h : p.1 < q.1
    · simp [insertByStart, h]
    · rw [show insertByStart p (q :: l) = q :: insertByStart p l from by
        simp [insertByStart, h]]
      exact (ih.cons q).trans (List.Perm.swap p q l)

lemma sortByStart_perm_aux :
    ∀ (l : List (Nat × Nat)) (acc),
      List.Perm (l.foldl (fun acc p => insertByStart p acc) acc) (acc ++ l) := by
  intro l
  induction l with
  | nil => intro acc; simp
  | cons p l ih =>
    intro acc
    rw [List.foldl_cons]
    refine (ih (insertByStart p acc)).trans ?_
    refine (List.Perm.append_right l (insertByStart_perm p acc)).trans ?_
    exact List.perm_middle.symm

/-- The sort is a permutation. -/
lemma sortByStart_perm (l : List (Nat × Nat)) :
    List.Perm (sortByStart l) l := by
  have h := sortByStart_perm_aux l []
  simpa [sortByStart] using h

/-- Inserting by start preserves sortedness by start. -/
lemma insertByStart_sorted (p : Nat × Nat) :
    ∀ l : List (Nat × Nat), l.Pairwise (fun a b => a.1 ≤ b.1) →
      (insertByStart p l).Pairwise (fun a b => a.1 ≤ b.1) := by
  intro l
  induction l with
  | nil => intro _; simp [insertByStart]
  | cons q l ih =>
    intro h
    obtain ⟨hq, hl⟩ := List.pairwise_cons.mp h
    by_cases hpq : p.1 < q.1
    · rw [show insertByStart p (q :: l) = p :: q :: l from by
        simp [insertByStart, hpq]]
      refine List.pairwise_cons.mpr ⟨?_, h⟩
      intro b hb
      rcases List.mem_cons.mp hb with rfl | hb
      · exact Nat.le_of_lt hpq
      · exact Nat.le_trans (Nat.le_of_lt hpq) (hq b hb)
    · rw [show insertByStart p (q :: l) = q :: insertByStart p l from by
        simp [insertByStart, hpq]]
      refine List.pairwise_cons.mpr ⟨?_, ih hl⟩
      intro b hb
      have hb' := (insertByStart_perm p l).mem_iff.mp hb
      rcases List.mem_cons.mp hb' with rfl | hb''
      · exact Nat.le_of_not_lt hpq
      · exact hq b hb''

lemma sortByStart_sorted_aux :
    ∀ (l : List (Nat × Nat)) (acc),
      acc.Pairwise (fun a b => a.1 ≤ b.1) →
      (l.foldl (fun acc p => insertByStart p acc) acc).Pairwise
        (fun a b => a.1 ≤ b.1) := by
  intro l
  induction l with
  | nil => intro acc h; simpa using h
  | cons p l ih =>
    intro acc h
    rw [List.foldl_cons]
    exact ih _ (insertByStart_sorted p acc h)

/-- The sort output is sorted by interval start. -/
lemma sortByStart_sorted (l : List (Nat × Nat)) :
    (sortByStart l).Pairwise (fun a b => a.1 ≤ b.1) :=
  sortByStart_sorted_aux l [] List.Pairwise.nil

lemma countCover_nil (t : Nat) : countCover t [] = 0 := rfl

lemma countCover_append (t : Nat) (l₁ l₂ : List (Nat × Nat)) :
    countCover t (l₁ ++ l₂) = countCover t l₁ + countCover t l₂ := by
  unfold countCover
  rw [List.filter_append, List.length_append]

lemma countCover_cons (t : Nat) (p : Nat × Nat) (l : List (Nat × Nat)) :
    countCover t (p :: l) =
      (if p.1 ≤ t ∧ t < p.2 then 1 else 0) + countCover t l := by
  unfold countCover
  rw [List.filter_cons]
  by_cases h : p.1 ≤ t ∧ t < p.2
  · rw [if_pos (by simp [h.1, h.2]), if_pos h, List.length_cons]
    omega
  · rw [if_neg (by simpa using h), if_neg h]
    omega

lemma countCover_singleton (t a b : Nat) :
    countCover t [(a, b)] = if a ≤ t ∧ t < b then 1 else 0 := by
  rw [countCover_cons, countCover_nil]
  simp

/-- Core invariant of the free-period cursor: for a busy list that is sorted
by start, made of well-formed intervals bounded by the window end, pairwise
non-overlapping, and entirely at or after the cursor, every instant of
`[cur, we)` is covered by exactly one interval of busy-plus-free, and no
instant outside it is covered at all. -/
lemma freePeriods_countCover (we : Nat) :
    ∀ (l : List (Nat × Nat)) (cur : Nat),
      l.Pairwise (fun a b => a.1 ≤ b.1) →
      l.Pairwise (fun a b => ¬(a.1 < b.2 ∧ b.1 < a.2)) →
      (∀ p ∈ l, p.1 < p.2 ∧ p.2 ≤ we) →
      (∀ p ∈ l, cur ≤ p.1) →
      ∀ t, countCover t (l ++ freePeriods we cur l) =
        if cur ≤ t ∧ t < we then 1 else 0 := by
  intro l
  induction l with
  | nil =>
    intro cur _ _ _ _ t
    rw [List.nil_append]
    by_cases h : cur < we
    · rw [show freePeriods we cur [] = [(cur, we)] from by
        simp [freePeriods, h]]
      exact countCover_singleton t cur we
    · rw [show freePeriods we cur [] = [] from by simp [freePeriods, h]]
      rw [if_neg (by omega)]
      rfl
  | cons p rest ih =>
    intro cur hsort hdisj hwf hcur t
    obtain ⟨hsh, hsr⟩ := List.pairwise_cons.mp hsort
    obtain ⟨hdh, hdr⟩ := List.pairwise_cons.mp hdisj
    have hp := hwf p (List.mem_cons_self p rest)
    have hcp := hcur p (List.mem_cons_self p rest)
    have hsep : ∀ q ∈ rest, p.2 ≤ q.1 := by
      intro q hq
      have h1 := hsh q hq
      have h2 := (hwf q (List.mem_cons_of_mem p hq)).1
      have h3 := hdh q hq
      omega
    have hmax : max cur p.2 = p.2 := Nat.max_eq_right (by omega)
    have hfp : freePeriods we cur (p :: rest) =
        (if cur < p.1 then [(cur, p.1)] else []) ++
          freePeriods we (max cur p.2) rest := rfl
    have hIH := ih p.2 hsr hdr
      (fun q hq => hwf q (List.mem_cons_of_mem p hq)) hsep t
    rw [countCover_append] at hIH
    rw [hfp, hmax]
    by_cases hpre : cur < p.1
    · rw [if_pos hpre]
      rw [List.cons_append, countCover_cons, countCover_append,
        List.singleton_append, countCover_cons]
      split_ifs at hIH ⊢ <;> omega
    · rw [if_neg hpre]
      rw [List.cons_append, List.nil_append, countCover_cons,
        countCover_append]
      split_ifs at hIH ⊢ <;> omega

/-- C8 counterexample: user 1's only event `[480, 600)` starts inside day 0
(so it is fetched) but before the 09:00 window start; the instant 480 is
covered by the busy-plus-free result although it lies outside the working
window `[540, 1020)`, so busy and free do not exactly cover the window. -/
theorem busy_free_union_exceeds_window :
    countCover 480 ((freeBusyUser exdb8 1 0).1 ++ (freeBusyUser exdb8 1 0).2)
        = 1 ∧
      ¬(1440 * 0 + 540 ≤ 480) := by
  decide

/-- C8: when every fetched event of the subject's day lies inside the
working window and the events are pairwise non-overlapping, the returned
busy and free intervals tile the working window exactly: every instant of
the window is covered by exactly one interval, and no instant outside it is
covered. -/
theorem busy_free_tile_window (db : DB) (uid day : Nat)
    (hin : ∀ e ∈ dayFetch db uid day,
      1440 * day + 540 ≤ e.start_time ∧ e.start_time < e.end_time ∧
        e.end_time ≤ 1440 * day + 1020)
    (hdisj : (dayFetch db uid day).Pairwise
      (fun a b => ¬(a.start_time < b.end_time ∧ b.start_time < a.end_time))) :
    ∀ t, countCover t
        ((freeBusyUser db uid day).1 ++ (freeBusyUser db uid day).2) =
      if 1440 * day + 540 ≤ t ∧ t < 1440 * day + 1020 then 1 else 0 := by
  intro t
  have hperm : List.Perm
      (sortByStart ((dayFetch db uid day).map
        (fun e => (e.start_time, e.end_time))))
      ((dayFetch db uid day).map (fun e => (e.start_time, e.end_time))) :=
    sortByStart_perm _
  have hwfL : ∀ p ∈ (dayFetch db uid day).map
      (fun e => (e.start_time, e.end_time)),
      p.1 < p.2 ∧ p.2 ≤ 1440 * day + 1020 := by
    intro p hp
    obtain ⟨e, he, rfl⟩ := List.mem_map.mp hp
    exact ⟨(hin e he).2.1, (hin e he).2.2⟩
  have hwsL : ∀ p ∈ (dayFetch db uid day).map
      (fun e => (e.start_time, e.end_time)),
      1440 * day + 540 ≤ p.1 := by
    intro p hp
    obtain ⟨e, he, rfl⟩ := List.mem_map.mp hp
    exact (hin e he).1
  have hdisjL : ((dayFetch db uid day).map
      (fun e => (e.start_time, e.end_time))).Pairwise
      (fun a b => ¬(a.1 < b.2 ∧ b.1 < a.2)) :=
    hdisj.map _ (fun a b h => h)
  have hmain := freePeriods_countCover (1440 * day + 1020)
    (sortByStart ((dayFetch db uid day).map
      (fun e => (e.start_time, e.end_time))))
    (1440 * day + 540)
    (sortByStart_sorted _)
    ((List.Perm.pairwise_iff (fun h hc => h ⟨hc.2, hc.1⟩) hperm).mpr hdisjL)
    (fun p hp => hwfL p (hperm.mem_iff.mp hp))
    (fun p hp => hwsL p (hperm.mem_iff.mp hp)) t
  exact hmain

/-- Witness for C8: the single event `[600, 660)` of user 1 lies inside day
0's working window; the theorem applies and delivers the exact tiling. -/
theorem busy_free_tile_window_witness :
    ((∀ e ∈ dayFetch exdb1 1 0,
        1440 * 0 + 540 ≤ e.start_time ∧ e.start_time < e.end_time ∧
          e.end_time ≤ 1440 * 0 + 1020) ∧
      (dayFetch exdb1 1 0).Pairwise
        (fun a b =>
          ¬(a.start_time < b.end_time ∧ b.start_time < a.end_time))) ∧
      ∀ t, countCover t
          ((freeBusyUser exdb1 1 0).1 ++ (freeBusyUser exdb1 1 0).2) =
        if 1440 * 0 + 540 ≤ t ∧ t < 1440 * 0 + 1020 then 1 else 0 :=
  ⟨⟨by decide, by decide⟩,
    busy_free_tile_window exdb1 1 0 (by decide) (by decide)⟩

/-! ### The slot finder only consults fully-contained events (C9) -/

/-- C9: the per-user fetch of `find_common_available_time` keeps only events
with `start_time ≥ startDate` and `end_time ≤ endDate`, so adding an event
that starts before the window or ends after it — with any set of
participation rows for it — leaves the result unchanged: such an event is
never tested against any candidate slot. -/
theorem find_common_ignores_outside_events (db : DB) (ev : EventRow)
    (newUes : List UERow) (user_ids : List Nat)
    (dur sd ed sh eh nid : Nat)
    (hid : ∀ e ∈ db.events, e.id ≠ ev.id)
    (hues : ∀ r ∈ newUes, r.event_id = ev.id)
    (hout : ev.start_time < sd ∨ ed < ev.end_time) :
    find_common_available_time
      { db with
          events := db.events ++ [ev]
          user_events := db.user_events ++ newUes
          next_event_id := nid }
      user_ids dur sd ed sh eh =
    find_common_available_time db user_ids dur sd ed sh eh := by
  have hfetch : ∀ u, fetchWin
      { db with
          events := db.events ++ [ev]
          user_events := db.user_events ++ newUes
          next_event_id := nid } u sd ed = fetchWin db u sd ed := by
    intro u
    unfold fetchWin
    congr 1
    congr 1
    rw [List.filter_append]
    have hev : ([ev].filter (fun e =>
        participatesb
          { db with
              events := db.events ++ [ev]
              user_events := db.user_events ++ newUes
              next_event_id := nid } u e
          && sd ≤ e.start_time && e.end_time ≤ ed)) = [] := by
      rw [List.filter_cons, List.filter_nil, if_neg]
      intro hcond
      simp only [Bool.and_eq_true, decide_eq_true_eq] at hcond
      omega
    rw [hev, List.append_nil]
    refine List.filter_congr (fun e he => ?_)
    have hnew : (newUes.any fun r => r.user_id == u && r.event_id == e.id) =
        false := by
      rw [List.any_eq_false]
      intro r hr
      simp only [Bool.and_eq_true, beq_iff_eq, not_and]
      intro _ h2
      have heq : e.id = ev.id := by rw [← h2, hues r hr]
      exact hid e he heq
    have hpart : participatesb
        { db with
            events := db.events ++ [ev]
            user_events := db.user_events ++ newUes
            next_event_id := nid } u e = participatesb db u e := by
      unfold participatesb
      simp only [List.any_append, hnew, Bool.or_false]
    rw [hpart]
  have hmap : user_ids.map (fun u => fetchWin
      { db with
          events := db.events ++ [ev]
          user_events := db.user_events ++ newUes
          next_event_id := nid } u sd ed) =
      user_ids.map (fun u => fetchWin db u sd ed) :=
    List.map_congr_left (fun u _ => hfetch u)
  simp only [find_common_available_time]
  rw [hmap]

/-- Witness for C9: adding event 2 over `[100, 300)` — which starts before
the window `[500, 1439]` — for participant 1 does not change the slots found
for user 1. -/
theorem find_common_ignores_outside_events_witness :
    ((∀ e ∈ exdb1.events, e.id ≠ 2) ∧
        (∀ r ∈ [UERow.mk 1 2 false], r.event_id = 2) ∧
        ((100 : Nat) < 500 ∨ (1439 : Nat) < 300)) ∧
      (find_common_available_time
        { exdb1 with
            events := exdb1.events ++ [⟨2, "x", "", 100, 300, none⟩]
            user_events := exdb1.user_events ++ [⟨1, 2, false⟩]
            next_event_id := 3 }
        [1] 60 500 1439 9 17 =
      find_common_available_time exdb1 [1] 60 500 1439 9 17) :=
  ⟨⟨by decide, by decide, by decide⟩,
    find_common_ignores_outside_events exdb1 ⟨2, "x", "", 100, 300, none⟩
      [⟨1, 2, false⟩] [1] 60 500 1439 9 17 3 (by decide) (by decide)
      (by decide)⟩
